import Mathlib

/-!
Shallow embedding of `src/anisotropic-young-modulus_cubic-materials_from_compliance_colored.py`.

The program computes the directional Young's modulus E(n) of a cubic crystal
from compliances (S11, S12, S44) over a regular (theta, phi) spherical grid and
renders it as a colored 3D surface.  Machine floats are modelled by real
numbers; numpy arrays of shape (samples, samples) are modelled as functions
from a pair of natural-number indices (row i along phi, column j along theta)
to the reals.
-/

namespace WST3

/-- `np.linspace a b n` : the `i`-th of `n` uniformly spaced values from `a`
to `b`, both endpoints included (numpy default `endpoint=True`), for `n ≥ 2`. -/
noncomputable def linspace (a b : ℝ) (n : ℕ) (i : ℕ) : ℝ :=
  a + (b - a) * i / (n - 1)

/-- `theta = np.linspace(0, np.pi, samples)` (line 27). -/
noncomputable def thetaVal (samples : ℕ) (j : ℕ) : ℝ :=
  linspace 0 Real.pi samples j

/-- `phi = np.linspace(0, 2*np.pi, samples)` (line 28). -/
noncomputable def phiVal (samples : ℕ) (i : ℕ) : ℝ :=
  linspace 0 (2 * Real.pi) samples i

/-- `T, P = np.meshgrid(theta, phi)` (line 29): `T[i, j] = theta[j]`. -/
noncomputable def Tgrid (samples : ℕ) (i j : ℕ) : ℝ :=
  thetaVal samples j

/-- `T, P = np.meshgrid(theta, phi)` (line 29): `P[i, j] = phi[i]`. -/
noncomputable def Pgrid (samples : ℕ) (i j : ℕ) : ℝ :=
  phiVal samples i

/-- `ax = np.sin(T) * np.cos(P)` (line 32): the component `n1`. -/
noncomputable def axGrid (samples : ℕ) (i j : ℕ) : ℝ :=
  Real.sin (Tgrid samples i j) * Real.cos (Pgrid samples i j)

/-- `ay = np.sin(T) * np.sin(P)` (line 33): the component `n2`. -/
noncomputable def ayGrid (samples : ℕ) (i j : ℕ) : ℝ :=
  Real.sin (Tgrid samples i j) * Real.sin (Pgrid samples i j)

/-- `az = np.cos(T)` (line 34): the component `n3`. -/
noncomputable def azGrid (samples : ℕ) (i j : ℕ) : ℝ :=
  Real.cos (Tgrid samples i j)

/-- `I2 = n1_2 * n2_2 + n2_2 * n3_2 + n3_2 * n1_2` (lines 37-40), as a
pointwise function of the direction components. -/
noncomputable def I2point (n1 n2 n3 : ℝ) : ℝ :=
  n1 ^ 2 * n2 ^ 2 + n2 ^ 2 * n3 ^ 2 + n3 ^ 2 * n1 ^ 2

/-- `Einv = S11 - 2.0 * (S11 - S12 - 0.5 * S44) * I2` (line 43), pointwise in
the invariant value `i2`. -/
noncomputable def EinvRaw (S11 S12 S44 i2 : ℝ) : ℝ :=
  S11 - 2.0 * (S11 - S12 - 0.5 * S44) * i2

/-- The floor `1e-16` used in `Einv = np.maximum(Einv, 1e-16)` (line 44). -/
noncomputable def floorEps : ℝ := 1e-16

/-- Lines 43-44: the clamped inverse modulus, pointwise. -/
noncomputable def EinvPoint (S11 S12 S44 n1 n2 n3 : ℝ) : ℝ :=
  max (EinvRaw S11 S12 S44 (I2point n1 n2 n3)) floorEps

/-- Lines 43-47: the pointwise modulus `E = 1.0 / Einv` as a function of the
compliances and the direction components. -/
noncomputable def Epoint (S11 S12 S44 n1 n2 n3 : ℝ) : ℝ :=
  1.0 / EinvPoint S11 S12 S44 n1 n2 n3

/-- The grid array `E` returned by `directional_E_cubic_from_S` (line 47). -/
noncomputable def Egrid (S11 S12 S44 : ℝ) (samples : ℕ) (i j : ℕ) : ℝ :=
  Epoint S11 S12 S44 (axGrid samples i j) (ayGrid samples i j) (azGrid samples i j)

/-- `directional_E_cubic_from_S(S11, S12, S44, samples)` (lines 19-48):
returns the tuple `(E, ax, ay, az)` of grid arrays. -/
noncomputable def directional_E_cubic_from_S (S11 S12 S44 : ℝ) (samples : ℕ) :
    (ℕ → ℕ → ℝ) × (ℕ → ℕ → ℝ) × (ℕ → ℕ → ℝ) × (ℕ → ℕ → ℝ) :=
  (Egrid S11 S12 S44 samples, axGrid samples, ayGrid samples, azGrid samples)

/-- The cubic stability conditions checked in `main` (lines 131-133). -/
def stabilityOK (S11 S12 S44 : ℝ) : Prop :=
  S11 > 0 ∧ S44 > 0 ∧ S11 - S12 > 0 ∧ S11 + 2 * S12 > 0

/-- `main` (lines 130-139): emits the warning exactly when the stability check
fails, then unconditionally computes the field.  Modelled as the pair of the
warning condition and the computed tuple. -/
noncomputable def mainRun (S11 S12 S44 : ℝ) (samples : ℕ) :
    Prop × ((ℕ → ℕ → ℝ) × (ℕ → ℕ → ℝ) × (ℕ → ℕ → ℝ) × (ℕ → ℕ → ℝ)) :=
  (¬ stabilityOK S11 S12 S44, directional_E_cubic_from_S S11 S12 S44 samples)

/-- Modelled from the spec: the color-normalization step of
`plot_young_surface_colored` (line 70, `plt.Normalize(vmin=E.min(), vmax=E.max())`)
is implemented by the external plotting backend, whose code is not under
`src/`.  Following the spec's words, it maps a value `v` linearly from
`[vmin, vmax]` to `[0, 1]`, and special-cases a zero-width range by mapping
every value to the fixed midpoint `1/2` instead of dividing by zero. -/
noncomputable def normalizeColor (vmin vmax v : ℝ) : ℝ :=
  if vmax = vmin then 1 / 2 else (v - vmin) / (vmax - vmin)

/-! ## Basic facts about the clamp -/

theorem floorEps_pos : (0 : ℝ) < floorEps := by
  norm_num [floorEps]

theorem EinvPoint_pos (S11 S12 S44 n1 n2 n3 : ℝ) :
    0 < EinvPoint S11 S12 S44 n1 n2 n3 :=
  lt_of_lt_of_le floorEps_pos (le_max_right _ _)

/-- Helper: `Epoint` depends on the direction only through `I2point`. -/
theorem Epoint_congr_I2 (S11 S12 S44 a b c d e f : ℝ)
    (h : I2point a b c = I2point d e f) :
    Epoint S11 S12 S44 a b c = Epoint S11 S12 S44 d e f := by
  unfold Epoint EinvPoint
  rw [h]

/-- C1: for all real compliances and `samples ≥ 2`, every entry of the modulus
field `E` returned by `directional_E_cubic_from_S` is strictly positive and
finite (bounded above by `1e16 = 1/1e-16`), because the clamp
`max(Einv, 1e-16)` makes the divisor strictly positive. -/
theorem c1_E_pos_and_finite (S11 S12 S44 : ℝ) (samples : ℕ)
    (hs : 2 ≤ samples) (i j : ℕ) (hi : i < samples) (hj : j < samples) :
    0 < (directional_E_cubic_from_S S11 S12 S44 samples).1 i j ∧
    (directional_E_cubic_from_S S11 S12 S44 samples).1 i j ≤ 1e16 := by
  show 0 < Egrid S11 S12 S44 samples i j ∧ Egrid S11 S12 S44 samples i j ≤ 1e16
  unfold Egrid Epoint
  have hpos := EinvPoint_pos S11 S12 S44 (axGrid samples i j) (ayGrid samples i j)
    (azGrid samples i j)
  have hle : floorEps ≤ EinvPoint S11 S12 S44 (axGrid samples i j)
      (ayGrid samples i j) (azGrid samples i j) := le_max_right _ _
  constructor
  · positivity
  · have h2 := one_div_le_one_div_of_le floorEps_pos hle
    calc (1.0 : ℝ) / EinvPoint S11 S12 S44 (axGrid samples i j) (ayGrid samples i j)
          (azGrid samples i j)
        ≤ 1 / floorEps := by norm_num at h2 ⊢; exact h2
      _ = 1e16 := by norm_num [floorEps]

theorem c1_E_pos_and_finite_witness :
    2 ≤ 2 ∧ 0 < 2 ∧ 0 < 2 ∧
    (0 < (directional_E_cubic_from_S 1 0 1 2).1 0 0 ∧
      (directional_E_cubic_from_S 1 0 1 2).1 0 0 ≤ 1e16) :=
  ⟨by norm_num, by norm_num, by norm_num,
    c1_E_pos_and_finite 1 0 1 2 (by norm_num) 0 0 (by norm_num) (by norm_num)⟩

/-- C2: at every grid cell the direction components returned by
`directional_E_cubic_from_S` satisfy `n1² + n2² + n3² = 1` exactly in real
arithmetic. -/
theorem c2_unit_direction (samples : ℕ) (hs : 2 ≤ samples) (i j : ℕ)
    (hi : i < samples) (hj : j < samples) :
    (axGrid samples i j) ^ 2 + (ayGrid samples i j) ^ 2 + (azGrid samples i j) ^ 2 = 1 := by
  unfold axGrid ayGrid azGrid
  have ht := Real.sin_sq_add_cos_sq (Tgrid samples i j)
  have hp := Real.sin_sq_add_cos_sq (Pgrid samples i j)
  nlinarith [ht, hp]

theorem c2_unit_direction_witness :
    2 ≤ 2 ∧ 0 < 2 ∧ 0 < 2 ∧
    (axGrid 2 0 0) ^ 2 + (ayGrid 2 0 0) ^ 2 + (azGrid 2 0 0) ^ 2 = 1 :=
  ⟨by norm_num, by norm_num, by norm_num,
    c2_unit_direction 2 (by norm_num) 0 0 (by norm_num) (by norm_num)⟩

/-- C4: for every unit direction and all compliances, the pointwise modulus is
invariant under cyclic permutation of the components and under a sign flip of
any single component. -/
theorem c4_symmetry (S11 S12 S44 n1 n2 n3 : ℝ)
    (h : n1 ^ 2 + n2 ^ 2 + n3 ^ 2 = 1) :
    Epoint S11 S12 S44 n1 n2 n3 = Epoint S11 S12 S44 n2 n3 n1 ∧
    Epoint S11 S12 S44 n1 n2 n3 = Epoint S11 S12 S44 n3 n1 n2 ∧
    Epoint S11 S12 S44 (-n1) n2 n3 = Epoint S11 S12 S44 n1 n2 n3 ∧
    Epoint S11 S12 S44 n1 (-n2) n3 = Epoint S11 S12 S44 n1 n2 n3 ∧
    Epoint S11 S12 S44 n1 n2 (-n3) = Epoint S11 S12 S44 n1 n2 n3 :=
  ⟨Epoint_congr_I2 _ _ _ _ _ _ _ _ _ (by unfold I2point; ring),
   Epoint_congr_I2 _ _ _ _ _ _ _ _ _ (by unfold I2point; ring),
   Epoint_congr_I2 _ _ _ _ _ _ _ _ _ (by unfold I2point; ring),
   Epoint_congr_I2 _ _ _ _ _ _ _ _ _ (by unfold I2point; ring),
   Epoint_congr_I2 _ _ _ _ _ _ _ _ _ (by unfold I2point; ring)⟩

theorem c4_symmetry_witness :
    (1 : ℝ) ^ 2 + 0 ^ 2 + 0 ^ 2 = 1 ∧
    (Epoint 1 0 1 1 0 0 = Epoint 1 0 1 0 0 1 ∧
     Epoint 1 0 1 1 0 0 = Epoint 1 0 1 0 1 0 ∧
     Epoint 1 0 1 (-1) 0 0 = Epoint 1 0 1 1 0 0 ∧
     Epoint 1 0 1 1 (-0) 0 = Epoint 1 0 1 1 0 0 ∧
     Epoint 1 0 1 1 0 (-0) = Epoint 1 0 1 1 0 0) :=
  ⟨by norm_num, c4_symmetry 1 0 1 1 0 0 (by norm_num)⟩

/-- C7: `main` prints the stability warning iff at least one of the four
conditions `S11 > 0`, `S44 > 0`, `S11 − S12 > 0`, `S11 + 2·S12 > 0` fails, and
the computed field is the one `directional_E_cubic_from_S` returns for the
given inputs, independently of whether the warning was emitted. -/
theorem c7_warning_nonfatal (S11 S12 S44 : ℝ) (samples : ℕ) :
    ((mainRun S11 S12 S44 samples).1 ↔
      (S11 ≤ 0 ∨ S44 ≤ 0 ∨ S11 - S12 ≤ 0 ∨ S11 + 2 * S12 ≤ 0)) ∧
    (mainRun S11 S12 S44 samples).2 = directional_E_cubic_from_S S11 S12 S44 samples := by
  constructor
  · show ¬ stabilityOK S11 S12 S44 ↔ _
    rw [stabilityOK, not_and_or, not_and_or, not_and_or]
    simp only [not_lt]
  · rfl

/-- C8: if all grid values of `E` are equal (`E.min() == E.max()`, a zero-width
data range), the color-normalization step assigns the fixed midpoint value
`1/2` to every grid cell instead of dividing by zero. -/
theorem c8_degenerate_range (E : ℕ → ℕ → ℝ) (c : ℝ)
    (hconst : ∀ i j : ℕ, E i j = c) (i j : ℕ) :
    normalizeColor c c (E i j) = 1 / 2 := by
  unfold normalizeColor
  simp

theorem c8_degenerate_range_witness :
    (∀ i j : ℕ, (fun _ _ : ℕ => (5 : ℝ)) i j = 5) ∧
    normalizeColor 5 5 ((fun _ _ : ℕ => (5 : ℝ)) 0 0) = 1 / 2 :=
  ⟨fun _ _ => rfl, c8_degenerate_range (fun _ _ => (5 : ℝ)) 5 (fun _ _ => rfl) 0 0⟩

/-! ## Facts about `linspace`, shared by the grid claims -/

theorem linspace_zero (a b : ℝ) (n : ℕ) : linspace a b n 0 = a := by
  unfold linspace
  norm_num

theorem linspace_last (a b : ℝ) (n : ℕ) (hn : 2 ≤ n) : linspace a b n (n - 1) = b := by
  unfold linspace
  have h2 : (2 : ℝ) ≤ (n : ℝ) := by exact_mod_cast hn
  have hcast : ((n - 1 : ℕ) : ℝ) = (n : ℝ) - 1 := by
    rw [Nat.cast_sub (le_trans one_le_two hn), Nat.cast_one]
  rw [hcast]
  have hne : (n : ℝ) - 1 ≠ 0 := by linarith
  field_simp

theorem linspace_step (a b : ℝ) (n : ℕ) (hn : 2 ≤ n) (i : ℕ) :
    linspace a b n (i + 1) - linspace a b n i = (b - a) / (n - 1) := by
  unfold linspace
  have h2 : (2 : ℝ) ≤ (n : ℝ) := by exact_mod_cast hn
  have hne : (n : ℝ) - 1 ≠ 0 := by linarith
  push_cast
  field_simp
  ring

theorem linspace_mem (a b : ℝ) (n : ℕ) (hn : 2 ≤ n) (hab : a ≤ b) (i : ℕ)
    (hi : i < n) : a ≤ linspace a b n i ∧ linspace a b n i ≤ b := by
  unfold linspace
  have h2 : (2 : ℝ) ≤ (n : ℝ) := by exact_mod_cast hn
  have hd : (0 : ℝ) < (n : ℝ) - 1 := by linarith
  have hin : (i : ℝ) ≤ (n : ℝ) - 1 := by
    have : (i : ℝ) + 1 ≤ (n : ℝ) := by exact_mod_cast Nat.succ_le_of_lt hi
    linarith
  constructor
  · have : 0 ≤ (b - a) * i / ((n : ℝ) - 1) :=
      div_nonneg (mul_nonneg (sub_nonneg.2 hab) (Nat.cast_nonneg i)) (le_of_lt hd)
    linarith
  · rw [← sub_nonneg]
    have hkey : (b - a) * i / ((n : ℝ) - 1) ≤ b - a := by
      rw [div_le_iff₀ hd]
      nlinarith [mul_le_mul_of_nonneg_left hin (sub_nonneg.2 hab)]
    linarith

/-- C6 counterexample: the last `phi` sample equals `2π`, so `phi` is *not*
contained in the half-open interval `[0, 2π)` — already at `samples = 2` the
sample at index 1 is exactly `2π`, not strictly below it. -/
theorem c6_counterexample : phiVal 2 1 = 2 * Real.pi ∧ ¬ phiVal 2 1 < 2 * Real.pi := by
  have h : phiVal 2 1 = 2 * Real.pi := by
    unfold phiVal linspace
    norm_num
  exact ⟨h, by rw [h]; exact lt_irrefl _⟩

/-- C6 (amended): `theta` consists of `samples` uniformly spaced values over
the closed interval `[0, π]` and `phi` of `samples` uniformly spaced values
over the *closed* interval `[0, 2π]` (both endpoints included), and the
meshgrid pairs every `theta` with every `phi`: `T[i,j] = theta[j]`,
`P[i,j] = phi[i]`, giving arrays of shape `(samples, samples)`. -/
theorem c6_amended_grid (samples : ℕ) (hs : 2 ≤ samples) :
    thetaVal samples 0 = 0 ∧
    thetaVal samples (samples - 1) = Real.pi ∧
    (∀ j : ℕ, thetaVal samples (j + 1) - thetaVal samples j =
      Real.pi / (samples - 1)) ∧
    (∀ j : ℕ, j < samples → 0 ≤ thetaVal samples j ∧ thetaVal samples j ≤ Real.pi) ∧
    phiVal samples 0 = 0 ∧
    phiVal samples (samples - 1) = 2 * Real.pi ∧
    (∀ i : ℕ, phiVal samples (i + 1) - phiVal samples i =
      2 * Real.pi / (samples - 1)) ∧
    (∀ i : ℕ, i < samples → 0 ≤ phiVal samples i ∧ phiVal samples i ≤ 2 * Real.pi) ∧
    (∀ i j : ℕ, Tgrid samples i j = thetaVal samples j ∧
      Pgrid samples i j = phiVal samples i) := by
  refine ⟨linspace_zero _ _ _, linspace_last _ _ _ hs, ?_, ?_,
    linspace_zero _ _ _, linspace_last _ _ _ hs, ?_, ?_, fun i j => ⟨rfl, rfl⟩⟩
  · intro j
    have h := linspace_step 0 Real.pi samples hs j
    simpa using h
  · intro j hj
    exact linspace_mem 0 Real.pi samples hs (le_of_lt Real.pi_pos) j hj
  · intro i
    have h := linspace_step 0 (2 * Real.pi) samples hs i
    simpa using h
  · intro i hi
    exact linspace_mem 0 (2 * Real.pi) samples hs (by positivity) i hi

theorem c6_amended_grid_witness :
    2 ≤ 2 ∧
    (thetaVal 2 0 = 0 ∧
     thetaVal 2 (2 - 1) = Real.pi ∧
     (∀ j : ℕ, thetaVal 2 (j + 1) - thetaVal 2 j = Real.pi / (2 - 1)) ∧
     (∀ j : ℕ, j < 2 → 0 ≤ thetaVal 2 j ∧ thetaVal 2 j ≤ Real.pi) ∧
     phiVal 2 0 = 0 ∧
     phiVal 2 (2 - 1) = 2 * Real.pi ∧
     (∀ i : ℕ, phiVal 2 (i + 1) - phiVal 2 i = 2 * Real.pi / (2 - 1)) ∧
     (∀ i : ℕ, i < 2 → 0 ≤ phiVal 2 i ∧ phiVal 2 i ≤ 2 * Real.pi) ∧
     (∀ i j : ℕ, Tgrid 2 i j = thetaVal 2 j ∧ Pgrid 2 i j = phiVal 2 i)) :=
  ⟨by norm_num, c6_amended_grid 2 (by norm_num)⟩

/-- Helper: at a direction with `n1 = n2 = 0` the invariant vanishes and the
modulus reduces to `1 / max S11 1e-16`. -/
theorem Epoint_pole (S11 S12 S44 c : ℝ) :
    Epoint S11 S12 S44 0 0 c = 1 / max S11 floorEps := by
  unfold Epoint EinvPoint EinvRaw I2point
  norm_num

/-- C9: on the grid rows `theta = 0` (column `j = 0`) and `theta = π` (column
`j = samples − 1`) the returned modulus equals `1 / max(S11, 1e-16)`, hence
`1 / S11` whenever `S11 ≥ 1e-16`, independently of `S12` and `S44`. -/
theorem c9_poles (S11 S12 S44 : ℝ) (samples : ℕ) (hs : 2 ≤ samples) (i : ℕ)
    (hi : i < samples) :
    Egrid S11 S12 S44 samples i 0 = 1 / max S11 1e-16 ∧
    Egrid S11 S12 S44 samples i (samples - 1) = 1 / max S11 1e-16 ∧
    ((1e-16 : ℝ) ≤ S11 →
      Egrid S11 S12 S44 samples i 0 = 1 / S11 ∧
      Egrid S11 S12 S44 samples i (samples - 1) = 1 / S11) := by
  have h0 : Egrid S11 S12 S44 samples i 0 = 1 / max S11 floorEps := by
    unfold Egrid axGrid ayGrid azGrid
    rw [show Tgrid samples i 0 = 0 from linspace_zero 0 Real.pi samples]
    simp only [Real.sin_zero, Real.cos_zero, zero_mul]
    exact Epoint_pole S11 S12 S44 1
  have h1 : Egrid S11 S12 S44 samples i (samples - 1) = 1 / max S11 floorEps := by
    unfold Egrid axGrid ayGrid azGrid
    rw [show Tgrid samples i (samples - 1) = Real.pi from
      linspace_last 0 Real.pi samples hs]
    simp only [Real.sin_pi, Real.cos_pi, zero_mul]
    exact Epoint_pole S11 S12 S44 (-1)
  have heps : floorEps = (1e-16 : ℝ) := rfl
  refine ⟨heps ▸ h0, heps ▸ h1, fun hS => ?_⟩
  have hmax : max S11 floorEps = S11 := max_eq_left (heps ▸ hS)
  rw [h0, h1, hmax]
  exact ⟨rfl, rfl⟩

theorem c9_poles_witness :
    2 ≤ 2 ∧ 0 < 2 ∧
    (Egrid 1 0 1 2 0 0 = 1 / max 1 1e-16 ∧
     Egrid 1 0 1 2 0 (2 - 1) = 1 / max 1 1e-16 ∧
     ((1e-16 : ℝ) ≤ 1 →
       Egrid 1 0 1 2 0 0 = 1 / 1 ∧ Egrid 1 0 1 2 0 (2 - 1) = 1 / 1)) :=
  ⟨by norm_num, by norm_num, c9_poles 1 0 1 2 (by norm_num) 0 (by norm_num)⟩

/-- C10: the `phi` samples include both `0` and `2π`, so the first and last
rows along the `phi` dimension of each returned array `n1`, `n2`, `n3`, `E`
are identical: the grid duplicates the seam of directions. -/
theorem c10_seam (S11 S12 S44 : ℝ) (samples : ℕ) (hs : 2 ≤ samples) (j : ℕ)
    (hj : j < samples) :
    axGrid samples 0 j = axGrid samples (samples - 1) j ∧
    ayGrid samples 0 j = ayGrid samples (samples - 1) j ∧
    azGrid samples 0 j = azGrid samples (samples - 1) j ∧
    Egrid S11 S12 S44 samples 0 j = Egrid S11 S12 S44 samples (samples - 1) j := by
  have hP0 : Pgrid samples 0 j = 0 := linspace_zero 0 (2 * Real.pi) samples
  have hP1 : Pgrid samples (samples - 1) j = 2 * Real.pi :=
    linspace_last 0 (2 * Real.pi) samples hs
  have hax : axGrid samples 0 j = axGrid samples (samples - 1) j := by
    unfold axGrid Tgrid
    rw [hP0, hP1, Real.cos_zero, Real.cos_two_pi]
  have hay : ayGrid samples 0 j = ayGrid samples (samples - 1) j := by
    unfold ayGrid Tgrid
    rw [hP0, hP1, Real.sin_zero, Real.sin_two_pi]
  have haz : azGrid samples 0 j = azGrid samples (samples - 1) j := rfl
  refine ⟨hax, hay, haz, ?_⟩
  unfold Egrid
  rw [hax, hay, haz]

theorem c10_seam_witness :
    2 ≤ 2 ∧ 0 < 2 ∧
    (axGrid 2 0 0 = axGrid 2 (2 - 1) 0 ∧
     ayGrid 2 0 0 = ayGrid 2 (2 - 1) 0 ∧
     azGrid 2 0 0 = azGrid 2 (2 - 1) 0 ∧
     Egrid 1 0 1 2 0 0 = Egrid 1 0 1 2 (2 - 1) 0) :=
  ⟨by norm_num, by norm_num, c10_seam 1 0 1 2 (by norm_num) 0 (by norm_num)⟩

/-- C3 counterexample: with `S11 = 1e-17`, `S12 = 0`, `S44 = 2e-17` we have
`S11 − S12 − 0.5·S44 = 0` and `S11 > 0`, yet the returned modulus at grid cell
`(0,0)` is `1/1e-16 = 1e16`, not `1/S11 = 1e17`, because the clamp floors
`Einv = S11` up to `1e-16`. -/
theorem c3_counterexample :
    ((1e-17 : ℝ) - 0 - 0.5 * 2e-17 = 0) ∧ (0 < (1e-17 : ℝ)) ∧ 2 ≤ 2 ∧
    (directional_E_cubic_from_S 1e-17 0 2e-17 2).1 0 0 ≠ 1 / 1e-17 := by
  refine ⟨by norm_num, by norm_num, by norm_num, ?_⟩
  show Egrid 1e-17 0 2e-17 2 0 0 ≠ 1 / 1e-17
  have h0 : Egrid 1e-17 0 2e-17 2 0 0 = 1 / max 1e-17 floorEps := by
    unfold Egrid axGrid ayGrid azGrid
    rw [show Tgrid 2 0 0 = 0 from linspace_zero 0 Real.pi 2]
    simp only [Real.sin_zero, Real.cos_zero, zero_mul]
    exact Epoint_pole 1e-17 0 2e-17 1
  rw [h0, max_eq_right (by norm_num [floorEps] : (1e-17 : ℝ) ≤ floorEps)]
  norm_num [floorEps]

/-- C3 (amended): if `S11 − S12 − 0.5·S44 = 0` and `S11 > 0`, the returned
field is constant over the grid, every entry equal to `1 / max(S11, 1e-16)`;
in particular every entry equals `1/S11` whenever `S11 ≥ 1e-16`. -/
theorem c3_isotropy (S11 S12 S44 : ℝ) (hiso : S11 - S12 - 0.5 * S44 = 0)
    (hpos : 0 < S11) (samples : ℕ) (hs : 2 ≤ samples) (i j : ℕ)
    (hi : i < samples) (hj : j < samples) :
    (directional_E_cubic_from_S S11 S12 S44 samples).1 i j = 1 / max S11 1e-16 ∧
    ((1e-16 : ℝ) ≤ S11 →
      (directional_E_cubic_from_S S11 S12 S44 samples).1 i j = 1 / S11) := by
  have hraw : ∀ i2 : ℝ, EinvRaw S11 S12 S44 i2 = S11 := by
    intro i2
    unfold EinvRaw
    rw [hiso]
    ring
  have hmain : (directional_E_cubic_from_S S11 S12 S44 samples).1 i j =
      1 / max S11 floorEps := by
    show Egrid S11 S12 S44 samples i j = 1 / max S11 floorEps
    unfold Egrid Epoint EinvPoint
    rw [hraw]
    norm_num
  have heps : floorEps = (1e-16 : ℝ) := rfl
  refine ⟨heps ▸ hmain, fun hS => ?_⟩
  rw [hmain, max_eq_left (heps ▸ hS)]

theorem c3_isotropy_witness :
    ((1 : ℝ) - 1 / 2 - 0.5 * 1 = 0) ∧ (0 < (1 : ℝ)) ∧ 2 ≤ 2 ∧ 0 < 2 ∧ 0 < 2 ∧
    ((directional_E_cubic_from_S 1 (1 / 2) 1 2).1 0 0 = 1 / max 1 1e-16 ∧
     ((1e-16 : ℝ) ≤ 1 → (directional_E_cubic_from_S 1 (1 / 2) 1 2).1 0 0 = 1 / 1)) :=
  ⟨by norm_num, by norm_num, by norm_num, by norm_num, by norm_num,
    c3_isotropy 1 (1 / 2) 1 (by norm_num) (by norm_num) 2 (by norm_num) 0 0
      (by norm_num) (by norm_num)⟩

/-! ## Facts about the invariant and monotonicity of the pointwise modulus -/

theorem I2point_nonneg (n1 n2 n3 : ℝ) : 0 ≤ I2point n1 n2 n3 := by
  unfold I2point
  positivity

theorem I2point_le_third (n1 n2 n3 : ℝ) (h : n1 ^ 2 + n2 ^ 2 + n3 ^ 2 = 1) :
    I2point n1 n2 n3 ≤ 1 / 3 := by
  unfold I2point
  nlinarith [sq_nonneg (n1 ^ 2 - n2 ^ 2), sq_nonneg (n2 ^ 2 - n3 ^ 2),
    sq_nonneg (n1 ^ 2 - n3 ^ 2), sq_nonneg (n1 ^ 2 + n2 ^ 2 + n3 ^ 2)]

/-- When the anisotropy coefficient is positive, the pointwise modulus is
nondecreasing in the invariant `I2`. -/
theorem Epoint_mono (S11 S12 S44 : ℝ) (hA : 0 < S11 - S12 - 0.5 * S44)
    (a b c d e f : ℝ) (hle : I2point a b c ≤ I2point d e f) :
    Epoint S11 S12 S44 a b c ≤ Epoint S11 S12 S44 d e f := by
  unfold Epoint EinvPoint
  have h1 : EinvRaw S11 S12 S44 (I2point d e f) ≤
      EinvRaw S11 S12 S44 (I2point a b c) := by
    unfold EinvRaw
    nlinarith
  have h2 : max (EinvRaw S11 S12 S44 (I2point d e f)) floorEps ≤
      max (EinvRaw S11 S12 S44 (I2point a b c)) floorEps :=
    max_le_max h1 (le_refl _)
  have hp : 0 < max (EinvRaw S11 S12 S44 (I2point d e f)) floorEps :=
    lt_of_lt_of_le floorEps_pos (le_max_right _ _)
  have h3 := one_div_le_one_div_of_le hp h2
  norm_num at h3 ⊢
  exact h3

/-- When the anisotropy coefficient is negative, the pointwise modulus is
nonincreasing in the invariant `I2`. -/
theorem Epoint_anti (S11 S12 S44 : ℝ) (hA : S11 - S12 - 0.5 * S44 < 0)
    (a b c d e f : ℝ) (hle : I2point a b c ≤ I2point d e f) :
    Epoint S11 S12 S44 d e f ≤ Epoint S11 S12 S44 a b c := by
  unfold Epoint EinvPoint
  have h1 : EinvRaw S11 S12 S44 (I2point a b c) ≤
      EinvRaw S11 S12 S44 (I2point d e f) := by
    unfold EinvRaw
    nlinarith
  have h2 : max (EinvRaw S11 S12 S44 (I2point a b c)) floorEps ≤
      max (EinvRaw S11 S12 S44 (I2point d e f)) floorEps :=
    max_le_max h1 (le_refl _)
  have hp : 0 < max (EinvRaw S11 S12 S44 (I2point a b c)) floorEps :=
    lt_of_lt_of_le floorEps_pos (le_max_right _ _)
  have h3 := one_div_le_one_div_of_le hp h2
  norm_num at h3 ⊢
  exact h3

theorem I2point_dir111 : I2point (Real.sqrt (1 / 3)) (Real.sqrt (1 / 3))
    (Real.sqrt (1 / 3)) = 1 / 3 := by
  unfold I2point
  rw [Real.sq_sqrt (by norm_num : (0 : ℝ) ≤ 1 / 3)]
  norm_num

/-- C5 counterexample: with `S11 = 1`, `S12 = 0`, `S44 = −8` (so the
coefficient `S11 − S12 − 0.5·S44 = 5 > 0` and `S11 > 0`), the unit directions
`(5/13, 12/13, 0)` and `(3/5, 4/5, 0)` have strictly different invariants
`I2`, yet the same modulus `E`: the clamp saturates at both, so `E` is *not*
strictly increasing in `I2`. -/
theorem c5_counterexample :
    (0 < (1 : ℝ)) ∧ (0 < (1 : ℝ) - 0 - 0.5 * (-8)) ∧
    ((5 / 13 : ℝ) ^ 2 + (12 / 13) ^ 2 + 0 ^ 2 = 1) ∧
    ((3 / 5 : ℝ) ^ 2 + (4 / 5) ^ 2 + 0 ^ 2 = 1) ∧
    I2point (5 / 13) (12 / 13) 0 < I2point (3 / 5) (4 / 5) 0 ∧
    ¬ Epoint 1 0 (-8) (5 / 13) (12 / 13) 0 < Epoint 1 0 (-8) (3 / 5) (4 / 5) 0 := by
  have hu : Epoint 1 0 (-8) (5 / 13) (12 / 13) 0 = 1.0 / floorEps := by
    unfold Epoint EinvPoint
    rw [max_eq_right (by unfold EinvRaw I2point floorEps; norm_num)]
  have hv : Epoint 1 0 (-8) (3 / 5) (4 / 5) 0 = 1.0 / floorEps := by
    unfold Epoint EinvPoint
    rw [max_eq_right (by unfold EinvRaw I2point floorEps; norm_num)]
  refine ⟨by norm_num, by norm_num, by norm_num, by norm_num, ?_, ?_⟩
  · unfold I2point
    norm_num
  · rw [hu, hv]
    exact lt_irrefl _

/-- C5 (amended): with `S11 > 0`, when `S11 − S12 − 0.5·S44 > 0` the pointwise
modulus is a nondecreasing function of `I2` over unit directions and attains
its maximum at the ⟨111⟩ direction (where `I2 = 1/3` is maximal); when
`S11 − S12 − 0.5·S44 < 0` it is nonincreasing in `I2` and attains its maximum
at the ⟨100⟩ direction (where `I2 = 0`).  (Strict monotonicity fails where the
`1e-16` clamp saturates, so "strictly increasing" is weakened to monotone.) -/
theorem c5_extremal_directions (S11 S12 S44 : ℝ) (hpos : 0 < S11) :
    (0 < S11 - S12 - 0.5 * S44 →
      (∀ u1 u2 u3 v1 v2 v3 : ℝ, u1 ^ 2 + u2 ^ 2 + u3 ^ 2 = 1 →
        v1 ^ 2 + v2 ^ 2 + v3 ^ 2 = 1 →
        I2point u1 u2 u3 ≤ I2point v1 v2 v3 →
        Epoint S11 S12 S44 u1 u2 u3 ≤ Epoint S11 S12 S44 v1 v2 v3) ∧
      (∀ u1 u2 u3 : ℝ, u1 ^ 2 + u2 ^ 2 + u3 ^ 2 = 1 →
        Epoint S11 S12 S44 u1 u2 u3 ≤ Epoint S11 S12 S44 (Real.sqrt (1 / 3))
          (Real.sqrt (1 / 3)) (Real.sqrt (1 / 3)))) ∧
    (S11 - S12 - 0.5 * S44 < 0 →
      (∀ u1 u2 u3 v1 v2 v3 : ℝ, u1 ^ 2 + u2 ^ 2 + u3 ^ 2 = 1 →
        v1 ^ 2 + v2 ^ 2 + v3 ^ 2 = 1 →
        I2point u1 u2 u3 ≤ I2point v1 v2 v3 →
        Epoint S11 S12 S44 v1 v2 v3 ≤ Epoint S11 S12 S44 u1 u2 u3) ∧
      (∀ u1 u2 u3 : ℝ, u1 ^ 2 + u2 ^ 2 + u3 ^ 2 = 1 →
        Epoint S11 S12 S44 u1 u2 u3 ≤ Epoint S11 S12 S44 1 0 0)) := by
  constructor
  · intro hA
    refine ⟨fun u1 u2 u3 v1 v2 v3 _ _ hle => Epoint_mono S11 S12 S44 hA _ _ _ _ _ _ hle,
      fun u1 u2 u3 hu => ?_⟩
    apply Epoint_mono S11 S12 S44 hA
    rw [I2point_dir111]
    exact I2point_le_third u1 u2 u3 hu
  · intro hA
    refine ⟨fun u1 u2 u3 v1 v2 v3 _ _ hle => Epoint_anti S11 S12 S44 hA _ _ _ _ _ _ hle,
      fun u1 u2 u3 hu => ?_⟩
    apply Epoint_anti S11 S12 S44 hA
    have h100 : I2point 1 0 0 = 0 := by
      unfold I2point
      norm_num
    rw [h100]
    exact I2point_nonneg u1 u2 u3

theorem c5_extremal_directions_witness :
    (0 < (1 : ℝ)) ∧
    ((0 < (1 : ℝ) - 0 - 0.5 * 1 →
      (∀ u1 u2 u3 v1 v2 v3 : ℝ, u1 ^ 2 + u2 ^ 2 + u3 ^ 2 = 1 →
        v1 ^ 2 + v2 ^ 2 + v3 ^ 2 = 1 →
        I2point u1 u2 u3 ≤ I2point v1 v2 v3 →
        Epoint 1 0 1 u1 u2 u3 ≤ Epoint 1 0 1 v1 v2 v3) ∧
      (∀ u1 u2 u3 : ℝ, u1 ^ 2 + u2 ^ 2 + u3 ^ 2 = 1 →
        Epoint 1 0 1 u1 u2 u3 ≤ Epoint 1 0 1 (Real.sqrt (1 / 3))
          (Real.sqrt (1 / 3)) (Real.sqrt (1 / 3)))) ∧
    ((1 : ℝ) - 0 - 0.5 * 1 < 0 →
      (∀ u1 u2 u3 v1 v2 v3 : ℝ, u1 ^ 2 + u2 ^ 2 + u3 ^ 2 = 1 →
        v1 ^ 2 + v2 ^ 2 + v3 ^ 2 = 1 →
        I2point u1 u2 u3 ≤ I2point v1 v2 v3 →
        Epoint 1 0 1 v1 v2 v3 ≤ Epoint 1 0 1 u1 u2 u3) ∧
      (∀ u1 u2 u3 : ℝ, u1 ^ 2 + u2 ^ 2 + u3 ^ 2 = 1 →
        Epoint 1 0 1 u1 u2 u3 ≤ Epoint 1 0 1 1 0 0))) :=
  ⟨by norm_num, c5_extremal_directions 1 0 1 (by norm_num)⟩

end WST3
